import Mathlib

/-!
Verification of the shobha image-composition pipeline.

Shallow embedding of the two pipeline revisions found in the repository:
the binary-search revision (src/api/platemaker_module.py, class PlateMaker)
and the linear-scan revision (src/platemaker_module.py, class PlateMaker).
Pure fragments of the Python code become Lean functions; Python exceptions
become Except/Option results; Python floats that only ever hold exact
sums and quotients of measured values are modelled by rationals.
-/

namespace Shobha

/-! ## Pixel-level image model

PIL RGBA pixels are 4-tuples of channel values.  `getdata` returns the
row-major flat list of pixels, `getpixel (x, y)` indexes it at
`y * width + x`, and `putdata` replaces the flat list keeping the size.
-/

structure Pixel where
  r : Nat
  g : Nat
  b : Nat
  a : Nat
deriving DecidableEq, Repr

/-- A decoded RGBA raster: dimensions plus the row-major `getdata` list. -/
structure RGBAImage where
  width : Nat
  height : Nat
  data : List Pixel
deriving DecidableEq, Repr

/-- `img.getpixel((x, y))` of PIL on the row-major data list. -/
def RGBAImage.getpixel (img : RGBAImage) (x y : Nat) : Pixel :=
  img.data.getD (y * img.width + x) ⟨0, 0, 0, 0⟩

/-- `sum(abs(pixel[i] - bg_color[i]) for i in range(3))` from
`_remove_color_with_tolerance`: per-channel absolute difference over the
three RGB channels only. -/
def colorDiff (p q : Pixel) : Nat :=
  ((p.r : Int) - q.r).natAbs + ((p.g : Int) - q.g).natAbs + ((p.b : Int) - q.b).natAbs

/-- `_remove_color_with_tolerance` (src/api/platemaker_module.py, lines 389-415):
every pixel whose distance from `bg` is strictly below `tolerance` becomes the
fully transparent pixel (255, 255, 255, 0); every other pixel is kept.  The
`len(pixel) >= 3` guard of the source is always true for RGBA data. -/
def removeColorWithTolerance (img : RGBAImage) (bg : Pixel) (tolerance : Nat) : RGBAImage :=
  { img with data := img.data.map (fun p =>
      if colorDiff p bg < tolerance then ⟨255, 255, 255, 0⟩ else p) }

/-- The eight border samples of `_remove_bg_corner_detection`: the four
corners followed by the four edge midpoints, in source order. -/
def borderSamples (img : RGBAImage) : List Pixel :=
  [img.getpixel 0 0,
   img.getpixel (img.width - 1) 0,
   img.getpixel 0 (img.height - 1),
   img.getpixel (img.width - 1) (img.height - 1)]
  ++
  [img.getpixel (img.width / 2) 0,
   img.getpixel 0 (img.height / 2),
   img.getpixel (img.width - 1) (img.height / 2),
   img.getpixel (img.width / 2) (img.height - 1)]

/-- `Counter(all_samples).most_common(1)[0][0]`: the element of maximal
multiplicity; ties are broken in favour of the earliest first occurrence,
which is the Counter insertion order. -/
def mostCommon (l : List Pixel) (d : Pixel) : Pixel :=
  l.foldl (fun best p => if l.count best < l.count p then p else best) (l.headD d)

/-- `_remove_bg_corner_detection` (src/api/platemaker_module.py, lines 334-362):
sample the border, take the most frequent sample as the background colour and
remove it with tolerance 35. -/
def removeBgCornerDetection (img : RGBAImage) : RGBAImage :=
  removeColorWithTolerance img (mostCommon (borderSamples img) ⟨0, 0, 0, 0⟩) 35

/-- `_is_removal_poor` (lines 417-428): the transparent-pixel fraction
exceeds the threshold 0.8; the float comparison
`transparent_count / total_pixels > 0.8` is the exact comparison
`5 * transparent_count > 4 * total_pixels`. -/
def isRemovalPoor (img : RGBAImage) : Bool :=
  5 * img.data.countP (fun p => p.a == 0) > 4 * img.data.length

/-! ## Background-removal fallback (C5) -/

/-- Input bytes as seen by PIL: either they decode to an RGBA raster or
`Image.open` raises on them. -/
inductive ImgBytes where
  | encoded (img : RGBAImage)
  | corrupt
deriving DecidableEq

/-- `Image.open(BytesIO(img_bytes)).convert("RGBA")`:
`some` on decodable bytes, `none` where PIL raises. -/
def decodeRGBA : ImgBytes → Option RGBAImage
  | .encoded img => some img
  | .corrupt => none

/-- `_remove_background_fallback` (src/api/platemaker_module.py, lines
313-332).  The try block decodes, runs corner detection and, when the
result is judged poor, the edge-detection heuristic (whose pixel output is
irrelevant to every claim and is abstracted as the parameter
`edgeDetect`).  The except handler re-opens the same bytes; on corrupt
input that second decode raises to the caller, which is the `.error`
result. -/
def removeBackgroundFallback (edgeDetect : RGBAImage → RGBAImage)
    (imgBytes : ImgBytes) : Except Unit RGBAImage :=
  match decodeRGBA imgBytes with
  | some img =>
      let result := removeBgCornerDetection img
      let result := if isRemovalPoor result then edgeDetect img else result
      .ok result
  | none =>
      match decodeRGBA imgBytes with
      | some img => .ok img
      | none => .error ()

/-! ## Remote background removal and retry loop (C6) -/

/-- `MAX_API_RETRIES = 2` (src/api/platemaker_module.py, line 31). -/
def MAX_API_RETRIES : Nat := 2

/-- `RETRY_DELAY = 1` second (line 32). -/
def RETRY_DELAY : Nat := 1

/-- One observable outcome of `requests.post` inside the retry loop:
an HTTP response with a status code (carrying the decoded body image,
only consulted on 200), a timeout, or another request exception. -/
inductive ApiResp where
  | http (code : Nat) (img : RGBAImage)
  | timeout
  | reqError
deriving DecidableEq

/-- The body of `for attempt in range(MAX_API_RETRIES)` in
`_remove_background_api` (lines 276-308), run over the list of remaining
attempt indices.  Returns the raised-or-returned result together with the
chronological list of `time.sleep` durations:
status 200 returns the body; status 429 on a non-final attempt sleeps
`RETRY_DELAY * 2 ** attempt` and retries; any other status falls through
to the warning and retries with no sleep; timeouts and request errors on a
non-final attempt sleep the constant `RETRY_DELAY` and retry.  A loop that
ends without a 200 reaches the final `raise RuntimeError`, the `.error`
result. -/
def apiAttempts (resp : Nat → ApiResp) (maxRetries : Nat) :
    List Nat → Except Unit RGBAImage × List Nat
  | [] => (.error (), [])
  | attempt :: rest =>
    match resp attempt with
    | .http code img =>
        if code = 200 then (.ok img, [])
        else if code = 429 ∧ attempt < maxRetries - 1 then
          let out := apiAttempts resp maxRetries rest
          (out.1, RETRY_DELAY * 2 ^ attempt :: out.2)
        else
          apiAttempts resp maxRetries rest
    | .timeout =>
        if attempt < maxRetries - 1 then
          let out := apiAttempts resp maxRetries rest
          (out.1, RETRY_DELAY :: out.2)
        else
          apiAttempts resp maxRetries rest
    | .reqError =>
        if attempt < maxRetries - 1 then
          let out := apiAttempts resp maxRetries rest
          (out.1, RETRY_DELAY :: out.2)
        else
          apiAttempts resp maxRetries rest

/-- `_remove_background_api` (lines 268-311) for a configured key:
the retry loop over attempts `0, ..., MAX_API_RETRIES - 1`. -/
def removeBackgroundApi (resp : Nat → ApiResp) : Except Unit RGBAImage × List Nat :=
  apiAttempts resp MAX_API_RETRIES (List.range MAX_API_RETRIES)

/-- `_remove_background` (lines 248-266): with the API available it tries
`_remove_background_api` and on any exception falls back to
`_remove_background_fallback`; without the API it goes straight to the
fallback. -/
def removeBackground (apiAvailable : Bool) (resp : Nat → ApiResp)
    (edgeDetect : RGBAImage → RGBAImage) (imgBytes : ImgBytes) :
    Except Unit RGBAImage :=
  if apiAvailable then
    match (removeBackgroundApi resp).1 with
    | .ok img => .ok img
    | .error _ => removeBackgroundFallback edgeDetect imgBytes
  else
    removeBackgroundFallback edgeDetect imgBytes

/-! ## Geometry-level image model (C2, C7, C10)

The compositing claims only constrain channel layout and dimensions, so
they are settled over a model that records the mode and size effects of
each PIL call.  `ImageDraw.Draw(...).text` and `canvas.paste` draw into the
canvas in place and never change its mode or size; `convert` changes only
the mode; `resize((w, h))` replaces the size.
-/

inductive ImgMode where
  | RGB
  | RGBA
deriving DecidableEq, Repr

structure Image where
  mode : ImgMode
  width : Nat
  height : Nat
deriving DecidableEq, Repr

/-- The layout constants of one pipeline revision, as read by
`PlateMaker.__init__`. -/
structure PMConfig where
  frameW : Nat
  frameH : Nat
  sidePad : Nat
  topPad : Nat
  bottomPad : Nat
  bannerPadY : Nat
deriving DecidableEq, Repr

/-- Defaults of the binary-search revision
(src/api/platemaker_module.py, lines 23-24). -/
def apiConfig : PMConfig := ⟨2400, 1800, 30, 30, 30, 40⟩

/-- Constants of the linear revision
(src/platemaker_module.py, lines 15-19). -/
def legacyConfig : PMConfig := ⟨5000, 4000, 40, 40, 40, 60⟩

/-- `canvas.paste(img, (x, y), img)`: in-place into the canvas, so the
canvas keeps its mode and size whatever the pasted image and offset are. -/
def pasteOnto (canvas : Image) (_fg : Image) (_x _y : Int) : Image :=
  canvas

/-- `draw.text((x, y), ...)`: draws glyphs into the canvas in place. -/
def drawTextOnto (canvas : Image) (_x _y : Int) : Image :=
  canvas

/-- `img.convert(mode)`. -/
def convertMode (canvas : Image) (m : ImgMode) : Image :=
  { canvas with mode := m }

/-- `_create_canvas` (src/api/platemaker_module.py, lines 586-609): a white
RGB canvas of the configured size; the optional gradient strip is pasted
into it in place and does not change mode or size. -/
def createCanvas (cfg : PMConfig) (bannerHeight : Nat) : Image :=
  ⟨.RGB, cfg.frameW + 2 * cfg.sidePad,
    cfg.topPad + bannerHeight + cfg.frameH + cfg.bottomPad⟩

/-- `make_canvas` (src/platemaker_module.py, lines 121-125): the same
formula in the linear revision. -/
def makeCanvas (cfg : PMConfig) (bannerH : Nat) : Image :=
  ⟨.RGB, cfg.frameW + 2 * cfg.sidePad,
    cfg.topPad + bannerH + cfg.frameH + cfg.bottomPad⟩

/-- `_compose_final_image` (src/api/platemaker_module.py, lines 547-584):
banner height is the measured text height plus twice the banner padding;
the canvas receives the shadow text, the main text and the pasted
foreground, and is returned converted to RGB. -/
def composeFinalImage (cfg : PMConfig) (foregroundImg : Image)
    (textWidth textHeight : Nat) : Image :=
  let bannerHeight := textHeight + 2 * cfg.bannerPadY
  let canvas := createCanvas cfg bannerHeight
  let textX : Int := cfg.sidePad + ((cfg.frameW : Int) - textWidth) / 2
  let textY : Int := cfg.topPad + ((bannerHeight : Int) - textHeight) / 2
  let shadowOffset : Int := 2
  let canvas := drawTextOnto canvas (textX + shadowOffset) (textY + shadowOffset)
  let canvas := drawTextOnto canvas textX textY
  let imgX : Int := cfg.sidePad + ((cfg.frameW : Int) - foregroundImg.width) / 2
  let imgY : Int := cfg.topPad + bannerHeight
      + ((cfg.frameH : Int) - foregroundImg.height) / 2
  let canvas := pasteOnto canvas foregroundImg imgX imgY
  convertMode canvas .RGB

/-! ## Proportional resizing (C7, C10) -/

/-- `_smart_resize` (src/api/platemaker_module.py, lines 464-475): an image
already inside the box is returned unchanged; otherwise both dimensions are
scaled by `min(max_w / width, max_h / height)` and truncated by `int(...)`.
The scale is an exact rational; `int` of a non-negative value is the floor.
A zero dimension outside the box makes Python raise ZeroDivisionError,
which is the `none` result. -/
def smartResize (img : Image) (maxW maxH : Nat) : Option Image :=
  if img.width ≤ maxW ∧ img.height ≤ maxH then
    some img
  else if img.width = 0 ∨ img.height = 0 then
    none
  else
    let scale : ℚ := min ((maxW : ℚ) / img.width) ((maxH : ℚ) / img.height)
    some ⟨img.mode, ⌊(img.width : ℚ) * scale⌋₊, ⌊(img.height : ℚ) * scale⌋₊⟩

/-- `downsize` (src/platemaker_module.py, lines 111-119): the identical
algorithm of the linear revision. -/
def downsize (img : Image) (boxW boxH : Nat) : Option Image :=
  if img.width ≤ boxW ∧ img.height ≤ boxH then
    some img
  else if img.width = 0 ∨ img.height = 0 then
    none
  else
    let scale : ℚ := min ((boxW : ℚ) / img.width) ((boxH : ℚ) / img.height)
    some ⟨img.mode, ⌊(img.width : ℚ) * scale⌋₊, ⌊(img.height : ℚ) * scale⌋₊⟩

/-! ## Banner text (C8) -/

/-- `catalog.upper()` of Python: uppercase every character. -/
def strUpper (s : String) : String :=
  ⟨s.data.map Char.toUpper⟩

/-- `make_banner_text` of the binary-search revision
(src/api/platemaker_module.py, lines 611-613). -/
def makeBannerTextApi (catalog design : String) : String :=
  strUpper catalog ++ " • 6.30 • D.No " ++ design

/-- `make_banner_text` of the linear revision
(src/platemaker_module.py, lines 154-156). -/
def makeBannerTextLegacy (name design : String) : String :=
  name ++ " 6.30 D.No " ++ design

/-! ## Font-size search (C1, C3)

Both searches only consult the measured text width of the fixed label at
each candidate point size, so they are parametrised by that measurement
`w : Nat → Nat`.
-/

/-- The `while min_size <= max_size` loop of `_get_optimal_font`
(src/api/platemaker_module.py, lines 687-703), with the loop variables
`min_size`, `max_size`, `best_font` as arguments.  The fuel argument
counts the remaining iterations; every iteration shrinks
`max_size + 1 - min_size`, so fuel `max_size + 1 - min_size` reproduces
the loop exactly. -/
def getOptimalFontAux (fits : Nat → Bool) : Nat → Nat → Nat → Nat → Nat
  | 0, _, _, best => best
  | _fuel + 1, minSize, maxSize, best =>
    if minSize ≤ maxSize then
      let midSize := (minSize + maxSize) / 2
      if fits midSize then
        getOptimalFontAux fits _fuel (midSize + 1) maxSize midSize
      else
        getOptimalFontAux fits _fuel minSize (midSize - 1) best
    else best

/-- `_get_optimal_font` (lines 680-704): binary search for the largest
size whose measured width is at most `max_width - 40` (the in-loop margin),
starting from `best_font = load_font(min_size)`. -/
def getOptimalFont (w : Nat → Nat) (minFontSize maxFontSize maxWidth : Nat) : Nat :=
  getOptimalFontAux (fun s => decide ((w s : Int) ≤ (maxWidth : Int) - 40))
    (maxFontSize + 1 - minFontSize) minFontSize maxFontSize minFontSize

/-- `range(self.MAX_FONT_SIZE, self.MIN_FONT_SIZE - 1, -2)` from
`best_font`: the descending step-2 candidate sizes. -/
def fontCandidates (maxFontSize minFontSize : Nat) : List Nat :=
  if maxFontSize < minFontSize then []
  else (List.range ((maxFontSize - minFontSize) / 2 + 1)).map
    (fun k => maxFontSize - 2 * k)

/-- `best_font` (src/platemaker_module.py, lines 182-188): first candidate
of the descending scan whose measured width fits `max_w`, with
`load_font(MIN_FONT_SIZE)` when none does. -/
def bestFont (w : Nat → Nat) (maxW maxFontSize minFontSize : Nat) : Nat :=
  ((fontCandidates maxFontSize minFontSize).find? (fun s => decide (w s ≤ maxW))).getD
    minFontSize

/-- `FONT_SIZE_RANGE` of the binary-search revision (line 25). -/
def API_MIN_FONT_SIZE : Nat := 24
def API_MAX_FONT_SIZE : Nat := 120

/-- Font range of the linear revision (src/platemaker_module.py, lines 20-21). -/
def LEGACY_MIN_FONT_SIZE : Nat := 40
def LEGACY_MAX_FONT_SIZE : Nat := 180

/-! ## Processing statistics (C9) -/

/-- The fields of `self.stats` that `_update_stats` touches. -/
structure Stats where
  imagesProcessed : Nat
  totalProcessingTime : ℚ
  averageProcessingTime : ℚ
deriving DecidableEq, Repr

/-- The initial counters from `PlateMaker.__init__` (lines 83-90). -/
def initStats : Stats := ⟨0, 0, 0⟩

/-- `_update_stats` (src/api/platemaker_module.py, lines 706-717):
increment the image counter, accumulate the processing time and recompute
`average_processing_time = total_processing_time / images_processed`.
The success flag only affects logging. -/
def updateStats (s : Stats) (processingTime : ℚ) : Stats :=
  let n := s.imagesProcessed + 1
  let total := s.totalProcessingTime + processingTime
  ⟨n, total, total / (n : ℚ)⟩

/-- Modelled from the spec: the Welford-style incremental mean
`avg += (new - avg) / count` that section 4.4 of the spec attributes to
the statistics tracking.  This is the comparison side of refinement claim
C9, not code of the repository. -/
structure WelfordState where
  count : Nat
  avg : ℚ
deriving DecidableEq, Repr

/-- Modelled from the spec: one Welford update with the incremented count. -/
def welfordStep (s : WelfordState) (x : ℚ) : WelfordState :=
  let c := s.count + 1
  ⟨c, s.avg + (x - s.avg) / (c : ℚ)⟩

/-- Relation between the source statistics state and the Welford state:
same count, same average, and the accumulated total determined by the
average. -/
def StatsAgrees (s : Stats) (v : WelfordState) : Prop :=
  s.imagesProcessed = v.count ∧
  s.averageProcessingTime = v.avg ∧
  s.totalProcessingTime = v.avg * (v.count : ℚ)

/-! ## Specification vocabulary for the retry claim (C6) -/

/-- Whether a response is the 200 success case, with its decoded body. -/
def succeedsWith : ApiResp → Option RGBAImage
  | .http 200 img => some img
  | _ => none

/-- The delays the loop actually sleeps after a failed non-final attempt:
exponential backoff only for 429; the constant delay for timeouts and
request errors; no sleep at all for any other HTTP status. -/
def sleepSchedule (r : ApiResp) (attempt : Nat) : List Nat :=
  match r with
  | .http code _ => if code = 429 then [RETRY_DELAY * 2 ^ attempt] else []
  | .timeout => [RETRY_DELAY]
  | .reqError => [RETRY_DELAY]

/-! ## Concrete counterexample fixtures -/

/-- A measurement with fitting set `{s ≤ 60} ∪ {119}`: width 50 at those
sizes, width 6000 elsewhere.  Not monotone, as nothing in claim C1
requires; size 119 also has the parity the step-2 scan never visits. -/
def wCexC1 : Nat → Nat := fun s => if s ≤ 60 ∨ s = 119 then 50 else 6000

/-- A 1-by-1 black raster used as a response body. -/
def blackDot : RGBAImage := ⟨1, 1, [⟨0, 0, 0, 255⟩]⟩

/-- A measurement whose width equals the point size: trivially monotone. -/
def linearWidth : Nat → Nat := fun s => s

/-- Endpoint behaviour: HTTP 500 on the first attempt, HTTP 200 on the
second. -/
def respCexC6 : Nat → ApiResp :=
  fun attempt => if attempt = 0 then .http 500 blackDot else .http 200 blackDot

/-- Endpoint behaviour: HTTP 429 on the first attempt, HTTP 200 on the
second. -/
def respWitC6 : Nat → ApiResp :=
  fun attempt => if attempt = 0 then .http 429 blackDot else .http 200 blackDot

/-- A 2-by-2 raster whose border is mostly near-white with one dark pixel. -/
def sampleImg : RGBAImage :=
  ⟨2, 2, [⟨255, 255, 255, 255⟩, ⟨250, 252, 251, 255⟩,
          ⟨10, 10, 10, 255⟩, ⟨255, 255, 255, 255⟩]⟩

/-! # Theorems -/

/-! ## C2: output mode and dimensions -/

/-- C2: for every successfully processed input, the image returned by
`process_image` — the value of `_compose_final_image` — is RGB, its width
is FRAME_W + 2 * SIDE_PAD and its height is
TOP_PAD + banner_height + FRAME_H + BOTTOM_PAD with banner_height the
measured text height plus 2 * BANNER_PAD_Y; the linear revision's
`make_canvas` allocates the same geometry. -/
theorem c2_output_mode_and_dimensions (cfg : PMConfig) (foregroundImg : Image)
    (textWidth textHeight bannerH : Nat) :
    (composeFinalImage cfg foregroundImg textWidth textHeight).mode = ImgMode.RGB ∧
    (composeFinalImage cfg foregroundImg textWidth textHeight).width
      = cfg.frameW + 2 * cfg.sidePad ∧
    (composeFinalImage cfg foregroundImg textWidth textHeight).height
      = cfg.topPad + (textHeight + 2 * cfg.bannerPadY) + cfg.frameH + cfg.bottomPad ∧
    (makeCanvas cfg bannerH).mode = ImgMode.RGB ∧
    (makeCanvas cfg bannerH).width = cfg.frameW + 2 * cfg.sidePad ∧
    (makeCanvas cfg bannerH).height
      = cfg.topPad + bannerH + cfg.frameH + cfg.bottomPad :=
  ⟨rfl, rfl, rfl, rfl, rfl, rfl⟩

/-! ## C8: banner text -/

/-- C8: for catalog Heritage and design 12 the binary-search revision
formats the banner as HERITAGE with bullet separators, the linear revision
as the plain catalog name with spaces; in general the label is the
catalog, the fixed 6.30 segment and the design number with case and
separator fixed by the revision. -/
theorem c8_banner_text :
    makeBannerTextApi "Heritage" "12" = "HERITAGE • 6.30 • D.No 12" ∧
    makeBannerTextLegacy "Heritage" "12" = "Heritage 6.30 D.No 12" ∧
    (∀ catalog design : String,
      makeBannerTextApi catalog design
        = strUpper catalog ++ " • 6.30 • D.No " ++ design) ∧
    (∀ catalog design : String,
      makeBannerTextLegacy catalog design
        = catalog ++ " 6.30 D.No " ++ design) :=
  ⟨by decide, by decide, fun _ _ => rfl, fun _ _ => rfl⟩

/-! ## C9: running average vs Welford mean -/

lemma statsAgrees_step (s : Stats) (v : WelfordState) (t : ℚ)
    (h : StatsAgrees s v) : StatsAgrees (updateStats s t) (welfordStep v t) := by
  obtain ⟨h1, h2, h3⟩ := h
  have hc : ((v.count : ℚ) + 1) ≠ 0 := by positivity
  refine ⟨by simp [updateStats, welfordStep, h1], ?_, ?_⟩
  · simp only [updateStats, welfordStep, h1, h2, h3]
    push_cast
    field_simp
    ring
  · simp only [updateStats, welfordStep, h1, h2, h3]
    push_cast
    field_simp
    ring

lemma statsAgrees_foldl :
    ∀ (ts : List ℚ) (s : Stats) (v : WelfordState),
      StatsAgrees s v →
      StatsAgrees (ts.foldl updateStats s) (ts.foldl welfordStep v) := by
  intro ts
  induction ts with
  | nil => intro s v h; exact h
  | cons t rest ih =>
    intro s v h
    exact ih _ _ (statsAgrees_step s v t h)

/-- C9: over any sequence of processing times, the
`average_processing_time` maintained by `_update_stats` as
total time divided by image count coincides, in exact rational
arithmetic, with the Welford-style incremental mean of the spec. -/
theorem c9_average_is_welford_mean (times : List ℚ) :
    (times.foldl updateStats initStats).averageProcessingTime
      = (times.foldl welfordStep ⟨0, 0⟩).avg :=
  (statsAgrees_foldl times initStats ⟨0, 0⟩ ⟨rfl, rfl, by simp [initStats]⟩).2.1

/-! ## C5: fallback background removal on corrupt input -/

/-- C5 counterexample: on bytes PIL cannot decode, the except handler of
`_remove_background_fallback` re-opens the same bytes, so the decode error
escapes to the caller instead of an RGBA image being returned — the claim
that the function never raises is false. -/
theorem c5_counterexample :
    removeBackgroundFallback id ImgBytes.corrupt = Except.error () := rfl

/-- C5 amended: for every decodable input, `_remove_background_fallback`
returns an image and never raises; only undecodable (corrupt) bytes make
the decode error propagate. -/
theorem c5_decodable_input_never_raises
    (edgeDetect : RGBAImage → RGBAImage) (img : RGBAImage) :
    ∃ result,
      removeBackgroundFallback edgeDetect (ImgBytes.encoded img)
        = Except.ok result := by
  unfold removeBackgroundFallback decodeRGBA
  exact ⟨_, rfl⟩

/-! ## C7: proportional resize -/

lemma resize_fits (wd ht maxW maxH : Nat) (hw : 0 < wd) (hh : 0 < ht) :
    ⌊(wd : ℚ) * min ((maxW : ℚ) / wd) ((maxH : ℚ) / ht)⌋₊ ≤ maxW ∧
    ⌊(ht : ℚ) * min ((maxW : ℚ) / wd) ((maxH : ℚ) / ht)⌋₊ ≤ maxH := by
  have hw' : (0 : ℚ) < wd := by exact_mod_cast hw
  have hh' : (0 : ℚ) < ht := by exact_mod_cast hh
  constructor
  · have h1 : (wd : ℚ) * min ((maxW : ℚ) / wd) ((maxH : ℚ) / ht) ≤ maxW := by
      calc (wd : ℚ) * min ((maxW : ℚ) / wd) ((maxH : ℚ) / ht)
          ≤ (wd : ℚ) * ((maxW : ℚ) / wd) :=
            mul_le_mul_of_nonneg_left (min_le_left _ _) (le_of_lt hw')
        _ = maxW := by field_simp
    calc ⌊(wd : ℚ) * min ((maxW : ℚ) / wd) ((maxH : ℚ) / ht)⌋₊
        ≤ ⌊(maxW : ℚ)⌋₊ := Nat.floor_le_floor h1
      _ = maxW := Nat.floor_natCast maxW
  · have h1 : (ht : ℚ) * min ((maxW : ℚ) / wd) ((maxH : ℚ) / ht) ≤ maxH := by
      calc (ht : ℚ) * min ((maxW : ℚ) / wd) ((maxH : ℚ) / ht)
          ≤ (ht : ℚ) * ((maxH : ℚ) / ht) :=
            mul_le_mul_of_nonneg_left (min_le_right _ _) (le_of_lt hh')
        _ = maxH := by field_simp
    calc ⌊(ht : ℚ) * min ((maxW : ℚ) / wd) ((maxH : ℚ) / ht)⌋₊
        ≤ ⌊(maxH : ℚ)⌋₊ := Nat.floor_le_floor h1
      _ = maxH := Nat.floor_natCast maxH

/-- C7: an image already inside the frame is returned unchanged; an image
exceeding the frame in some axis is scaled by
min(FRAME_W / width, FRAME_H / height): the output fits the frame in both
axes and both output dimensions are within one pixel below one common
uniform scale of the input, so the aspect ratio is preserved within the
rounding of one pixel; `downsize` of the linear revision computes the same
function. -/
theorem c7_resize_invariant (img : Image) (maxW maxH : Nat)
    (hw : 0 < img.width) (hh : 0 < img.height)
    (hmw : 0 < maxW) (hmh : 0 < maxH) :
    (img.width ≤ maxW ∧ img.height ≤ maxH →
      smartResize img maxW maxH = some img) ∧
    (¬(img.width ≤ maxW ∧ img.height ≤ maxH) →
      ∃ out, smartResize img maxW maxH = some out ∧
        out.width ≤ maxW ∧ out.height ≤ maxH ∧ out.mode = img.mode ∧
        ∃ scale : ℚ, 0 < scale ∧
          (out.width : ℚ) ≤ (img.width : ℚ) * scale ∧
          (img.width : ℚ) * scale < (out.width : ℚ) + 1 ∧
          (out.height : ℚ) ≤ (img.height : ℚ) * scale ∧
          (img.height : ℚ) * scale < (out.height : ℚ) + 1) ∧
    downsize img maxW maxH = smartResize img maxW maxH := by
  refine ⟨?_, ?_, rfl⟩
  · intro hfit
    simp [smartResize, hfit]
  · intro hnofit
    have hz : ¬(img.width = 0 ∨ img.height = 0) := by omega
    have hscale : (0 : ℚ) < min ((maxW : ℚ) / img.width) ((maxH : ℚ) / img.height) := by
      have hw' : (0 : ℚ) < img.width := by exact_mod_cast hw
      have hh' : (0 : ℚ) < img.height := by exact_mod_cast hh
      have hmw' : (0 : ℚ) < maxW := by exact_mod_cast hmw
      have hmh' : (0 : ℚ) < maxH := by exact_mod_cast hmh
      exact lt_min (div_pos hmw' hw') (div_pos hmh' hh')
    have hres : smartResize img maxW maxH =
        some ⟨img.mode,
          ⌊(img.width : ℚ) * min ((maxW : ℚ) / img.width) ((maxH : ℚ) / img.height)⌋₊,
          ⌊(img.height : ℚ) * min ((maxW : ℚ) / img.width) ((maxH : ℚ) / img.height)⌋₊⟩ := by
      unfold smartResize
      rw [if_neg hnofit, if_neg hz]
    refine ⟨_, hres, ?_, ?_, rfl,
      min ((maxW : ℚ) / img.width) ((maxH : ℚ) / img.height), hscale, ?_, ?_, ?_, ?_⟩
    · exact (resize_fits img.width img.height maxW maxH hw hh).1
    · exact (resize_fits img.width img.height maxW maxH hw hh).2
    · exact Nat.floor_le (by positivity)
    · exact Nat.lt_floor_add_one _
    · exact Nat.floor_le (by positivity)
    · exact Nat.lt_floor_add_one _

/-! ## C10: resize idempotence -/

/-- C10: applying `_smart_resize` twice with the same positive bounds is
the same as applying it once — a single application always lands inside
the bounds and an image inside the bounds passes through unchanged.  The
second application is sequenced through `bind`, so an input on which the
first application raises contributes the same raised outcome on both
sides. -/
theorem c10_resize_idempotent (img : Image) (maxW maxH : Nat)
    (hmw : 0 < maxW) (hmh : 0 < maxH) :
    (smartResize img maxW maxH).bind (fun out => smartResize out maxW maxH)
      = smartResize img maxW maxH := by
  by_cases hfit : img.width ≤ maxW ∧ img.height ≤ maxH
  · simp [smartResize, hfit]
  · by_cases hz : img.width = 0 ∨ img.height = 0
    · simp [smartResize, hfit, hz]
    · have hw : 0 < img.width := by omega
      have hh : 0 < img.height := by omega
      have hfits := resize_fits img.width img.height maxW maxH hw hh
      have hres : smartResize img maxW maxH =
          some ⟨img.mode,
            ⌊(img.width : ℚ) * min ((maxW : ℚ) / img.width) ((maxH : ℚ) / img.height)⌋₊,
            ⌊(img.height : ℚ) * min ((maxW : ℚ) / img.width) ((maxH : ℚ) / img.height)⌋₊⟩ := by
        unfold smartResize
        rw [if_neg hfit, if_neg hz]
      rw [hres, Option.some_bind]
      rw [smartResize.eq_def, if_pos ⟨hfits.1, hfits.2⟩]

/-! ## C4: corner-detection colour removal -/

/-- C4: in the local strategy, with the background colour fixed as the
most frequent of the eight border samples (four corners, four edge
midpoints), corner detection keeps the image size and replaces exactly the
pixels whose RGB distance from that colour is strictly below the tolerance
35 with the fully transparent pixel, passing every other pixel through
unchanged. -/
theorem c4_corner_removal (img : RGBAImage)
    (hw : 0 < img.width) (hh : 0 < img.height) :
    (removeBgCornerDetection img).width = img.width ∧
    (removeBgCornerDetection img).height = img.height ∧
    (removeBgCornerDetection img).data.length = img.data.length ∧
    ∀ i, i < img.data.length →
      (removeBgCornerDetection img).data.getD i ⟨0, 0, 0, 0⟩ =
        if colorDiff (img.data.getD i ⟨0, 0, 0, 0⟩)
            (mostCommon (borderSamples img) ⟨0, 0, 0, 0⟩) < 35
        then ⟨255, 255, 255, 0⟩
        else img.data.getD i ⟨0, 0, 0, 0⟩ := by
  refine ⟨rfl, rfl, by simp [removeBgCornerDetection, removeColorWithTolerance], ?_⟩
  intro i hi
  simp only [removeBgCornerDetection, removeColorWithTolerance]
  rw [List.getD_eq_getElem?_getD, List.getElem?_map, List.getElem?_eq_getElem hi,
    List.getD_eq_getElem?_getD, List.getElem?_eq_getElem hi]
  rfl

/-- C4 witness: the 2-by-2 sample image has positive dimensions and the
theorem applies to it. -/
theorem c4_witness :
    0 < sampleImg.width ∧ 0 < sampleImg.height ∧
    ((removeBgCornerDetection sampleImg).width = sampleImg.width ∧
     (removeBgCornerDetection sampleImg).height = sampleImg.height ∧
     (removeBgCornerDetection sampleImg).data.length = sampleImg.data.length ∧
     ∀ i, i < sampleImg.data.length →
       (removeBgCornerDetection sampleImg).data.getD i ⟨0, 0, 0, 0⟩ =
         if colorDiff (sampleImg.data.getD i ⟨0, 0, 0, 0⟩)
             (mostCommon (borderSamples sampleImg) ⟨0, 0, 0, 0⟩) < 35
         then ⟨255, 255, 255, 0⟩
         else sampleImg.data.getD i ⟨0, 0, 0, 0⟩) :=
  ⟨by decide, by decide, c4_corner_removal sampleImg (by decide) (by decide)⟩

/-- C7 witness: a 3000-by-1000 image against the 2400-by-1800 frame. -/
theorem c7_witness :
    0 < (3000 : Nat) ∧ 0 < (1000 : Nat) ∧ 0 < (2400 : Nat) ∧ 0 < (1800 : Nat) ∧
    (((3000 : Nat) ≤ 2400 ∧ (1000 : Nat) ≤ 1800 →
        smartResize ⟨ImgMode.RGBA, 3000, 1000⟩ 2400 1800
          = some ⟨ImgMode.RGBA, 3000, 1000⟩) ∧
     (¬((3000 : Nat) ≤ 2400 ∧ (1000 : Nat) ≤ 1800) →
        ∃ out, smartResize ⟨ImgMode.RGBA, 3000, 1000⟩ 2400 1800 = some out ∧
          out.width ≤ 2400 ∧ out.height ≤ 1800 ∧ out.mode = ImgMode.RGBA ∧
          ∃ scale : ℚ, 0 < scale ∧
            (out.width : ℚ) ≤ ((3000 : Nat) : ℚ) * scale ∧
            ((3000 : Nat) : ℚ) * scale < (out.width : ℚ) + 1 ∧
            (out.height : ℚ) ≤ ((1000 : Nat) : ℚ) * scale ∧
            ((1000 : Nat) : ℚ) * scale < (out.height : ℚ) + 1) ∧
     downsize ⟨ImgMode.RGBA, 3000, 1000⟩ 2400 1800
       = smartResize ⟨ImgMode.RGBA, 3000, 1000⟩ 2400 1800) :=
  ⟨by decide, by decide, by decide, by decide,
    c7_resize_invariant ⟨ImgMode.RGBA, 3000, 1000⟩ 2400 1800
      (by decide) (by decide) (by decide) (by decide)⟩

/-- C10 witness: idempotence at the 3000-by-1000 image and the
2400-by-1800 frame. -/
theorem c10_witness :
    0 < (2400 : Nat) ∧ 0 < (1800 : Nat) ∧
    (smartResize ⟨ImgMode.RGBA, 3000, 1000⟩ 2400 1800).bind
        (fun out => smartResize out 2400 1800)
      = smartResize ⟨ImgMode.RGBA, 3000, 1000⟩ 2400 1800 :=
  ⟨by decide, by decide,
    c10_resize_idempotent ⟨ImgMode.RGBA, 3000, 1000⟩ 2400 1800 (by decide) (by decide)⟩

/-! ## C1, C3: the two font-size searches

Helper lemmas first: what the binary-search loop returns when nothing in
the range fits, and when the predicate is downward closed; what the
descending scan returns on a strictly decreasing candidate list.
-/

lemma getOptimalFontAux_of_none (fits : Nat → Bool) :
    ∀ (fuel minSize maxSize best : Nat),
      (∀ s, minSize ≤ s → s ≤ maxSize → fits s = false) →
      getOptimalFontAux fits fuel minSize maxSize best = best := by
  intro fuel
  induction fuel with
  | zero =>
    intro minSize maxSize best _
    rfl
  | succ n ih =>
    intro minSize maxSize best h
    simp only [getOptimalFontAux]
    by_cases hle : minSize ≤ maxSize
    · rw [if_pos hle, h ((minSize + maxSize) / 2) (by omega) (by omega),
        if_neg Bool.false_ne_true]
      exact ih _ _ _ (fun s h1 h2 => h s h1 (by omega))
    · rw [if_neg hle]

lemma getOptimalFontAux_eq_max (fits : Nat → Bool)
    (dc : ∀ a b : Nat, a ≤ b → fits b = true → fits a = true) :
    ∀ (fuel minSize maxSize best m : Nat),
      maxSize + 1 - minSize ≤ fuel →
      minSize ≤ m → m ≤ maxSize → fits m = true →
      (∀ s, m < s → s ≤ maxSize → fits s = false) →
      getOptimalFontAux fits fuel minSize maxSize best = m := by
  intro fuel
  induction fuel with
  | zero =>
    intro minSize maxSize best m hfuel h1 h2 _ _
    omega
  | succ n ih =>
    intro minSize maxSize best m hfuel h1 h2 hm habove
    have hle : minSize ≤ maxSize := le_trans h1 h2
    have hmid1 : minSize ≤ (minSize + maxSize) / 2 := by omega
    have hmid2 : (minSize + maxSize) / 2 ≤ maxSize := by omega
    simp only [getOptimalFontAux]
    rw [if_pos hle]
    cases hfit : fits ((minSize + maxSize) / 2) with
    | true =>
      rw [if_pos rfl]
      have hmle : (minSize + maxSize) / 2 ≤ m := by
        by_contra hcon
        push_neg at hcon
        rw [habove _ hcon hmid2] at hfit
        exact Bool.noConfusion hfit
      rcases eq_or_lt_of_le hmle with heq | hlt
      · rw [heq]
        exact getOptimalFontAux_of_none fits n (m + 1) maxSize m
          (fun s hs1 hs2 => habove s (by omega) hs2)
      · exact ih _ _ _ _ (by omega) (by omega) h2 hm habove
    | false =>
      rw [if_neg Bool.false_ne_true]
      have hmlt : m < (minSize + maxSize) / 2 := by
        rcases lt_or_ge m ((minSize + maxSize) / 2) with h | h
        · exact h
        · rw [dc _ _ h hm] at hfit
          exact Bool.noConfusion hfit
      exact ih _ _ _ _ (by omega) h1 (by omega) hm
        (fun s hs1 hs2 => habove s hs1 (by omega))

/-- On a strictly decreasing candidate list, `find?` returns the largest
element satisfying the predicate. -/
lemma find?_desc_max (p : Nat → Bool) :
    ∀ (l : List Nat), l.Pairwise (· > ·) → ∀ r, l.find? p = some r →
      r ∈ l ∧ p r = true ∧ ∀ s ∈ l, p s = true → s ≤ r := by
  intro l
  induction l with
  | nil =>
    intro _ r h
    exact absurd h (by simp)
  | cons a t ih =>
    intro hp r hfind
    have hpc := List.pairwise_cons.mp hp
    cases hpa : p a with
    | true =>
      rw [List.find?_cons_of_pos _ hpa, Option.some.injEq] at hfind
      subst hfind
      refine ⟨List.mem_cons_self a t, hpa, ?_⟩
      intro s hs _
      rcases List.mem_cons.mp hs with rfl | hst
      · exact le_refl s
      · exact le_of_lt (hpc.1 s hst)
    | false =>
      rw [List.find?_cons_of_neg _ (by simp [hpa])] at hfind
      obtain ⟨hmem, hpr, hmax⟩ := ih hpc.2 r hfind
      refine ⟨List.mem_cons_of_mem a hmem, hpr, ?_⟩
      intro s hs hps
      rcases List.mem_cons.mp hs with rfl | hst
      · rw [hps] at hpa
        exact Bool.noConfusion hpa
      · exact hmax s hst hps

lemma fontCandidates_pairwise (maxFS minFS : Nat) :
    (fontCandidates maxFS minFS).Pairwise (· > ·) := by
  unfold fontCandidates
  split
  · exact List.Pairwise.nil
  · rename_i h
    refine List.pairwise_map.mpr ?_
    refine (List.pairwise_lt_range _).imp_of_mem ?_
    intro a b ha hb hab
    have ha' := List.mem_range.mp ha
    have hb' := List.mem_range.mp hb
    omega

lemma mem_fontCandidates {maxFS minFS s : Nat} :
    s ∈ fontCandidates maxFS minFS ↔ minFS ≤ s ∧ s ≤ maxFS ∧ 2 ∣ (maxFS - s) := by
  unfold fontCandidates
  split
  · rename_i h
    simp only [List.not_mem_nil, false_iff]
    omega
  · rename_i h
    simp only [List.mem_map, List.mem_range]
    constructor
    · rintro ⟨k, hk, rfl⟩
      omega
    · rintro ⟨h1, h2, h3⟩
      obtain ⟨k, hk⟩ := h3
      exact ⟨k, by omega, by omega⟩

/-- The binary search returns the maximum of a downward-closed fitting set
intersected with the size range. -/
lemma getOptimalFont_eq_max (w : Nat → Nat)
    (mono : ∀ a b : Nat, a ≤ b → w a ≤ w b)
    (minFS maxFS maxWidth m : Nat)
    (h1 : minFS ≤ m) (h2 : m ≤ maxFS)
    (hm : (w m : Int) ≤ (maxWidth : Int) - 40)
    (habove : ∀ s, m < s → s ≤ maxFS → ¬((w s : Int) ≤ (maxWidth : Int) - 40)) :
    getOptimalFont w minFS maxFS maxWidth = m := by
  unfold getOptimalFont
  refine getOptimalFontAux_eq_max _ ?_ _ _ _ _ _ (le_refl _) h1 h2 ?_ ?_
  · intro a b hab hb
    rw [decide_eq_true_eq] at hb ⊢
    have : (w a : Int) ≤ (w b : Int) := by exact_mod_cast mono a b hab
    exact le_trans this hb
  · rw [decide_eq_true_eq]
    exact hm
  · intro s hs1 hs2
    rw [decide_eq_false_iff_not]
    exact habove s hs1 hs2

/-- C1 counterexample: with the fitting set of `wCexC1` — everything up to
size 60 plus the isolated size 119 — both searches return 60, yet 119 lies
in the size range and fits the available width, so neither search returns
the maximum fitting size in the range: the binary search skips over the
non-contiguous fitting size, and the step-2 scan from an even maximum
never visits the odd size 119 at all. -/
theorem c1_counterexample :
    24 ≤ 119 ∧ 119 ≤ 120 ∧ (wCexC1 119 : Int) ≤ ((2340 : Nat) : Int) - 40 ∧
    getOptimalFont wCexC1 24 120 2340 = 60 ∧
    40 ≤ 119 ∧ 119 ≤ 180 ∧ wCexC1 119 ≤ 5000 ∧
    bestFont wCexC1 5000 180 40 = 60 ∧
    ¬(119 ≤ 60) := by decide

/-- C1 amended: when the measured width is monotone in the point size, the
binary search `_get_optimal_font` returns the maximum size in the range
whose width fits the available width reduced by its in-loop 40-pixel
margin, or MIN_FONT_SIZE when no size fits; the linear scan `best_font`
returns the maximum size among its step-2 candidates MAX, MAX-2, ... whose
width fits its bound, or MIN_FONT_SIZE when no candidate fits.  Both are
total functions of the measurement, so neither raises. -/
theorem c1_font_fit_search (w : Nat → Nat)
    (mono : ∀ a b : Nat, a ≤ b → w a ≤ w b)
    (minFontSize maxFontSize maxWidth maxW : Nat) :
    ((∃ s, minFontSize ≤ s ∧ s ≤ maxFontSize ∧
        (w s : Int) ≤ (maxWidth : Int) - 40) →
      minFontSize ≤ getOptimalFont w minFontSize maxFontSize maxWidth ∧
      getOptimalFont w minFontSize maxFontSize maxWidth ≤ maxFontSize ∧
      (w (getOptimalFont w minFontSize maxFontSize maxWidth) : Int)
          ≤ (maxWidth : Int) - 40 ∧
      (∀ s, minFontSize ≤ s → s ≤ maxFontSize →
        (w s : Int) ≤ (maxWidth : Int) - 40 →
        s ≤ getOptimalFont w minFontSize maxFontSize maxWidth)) ∧
    ((∀ s, minFontSize ≤ s → s ≤ maxFontSize →
        ¬((w s : Int) ≤ (maxWidth : Int) - 40)) →
      getOptimalFont w minFontSize maxFontSize maxWidth = minFontSize) ∧
    ((∃ s, s ∈ fontCandidates maxFontSize minFontSize ∧ w s ≤ maxW) →
      bestFont w maxW maxFontSize minFontSize ∈ fontCandidates maxFontSize minFontSize ∧
      w (bestFont w maxW maxFontSize minFontSize) ≤ maxW ∧
      (∀ s, s ∈ fontCandidates maxFontSize minFontSize → w s ≤ maxW →
        s ≤ bestFont w maxW maxFontSize minFontSize)) ∧
    ((∀ s ∈ fontCandidates maxFontSize minFontSize, ¬(w s ≤ maxW)) →
      bestFont w maxW maxFontSize minFontSize = minFontSize) := by
  refine ⟨?_, ?_, ?_, ?_⟩
  · rintro ⟨s0, hs1, hs2, hs3⟩
    set P : Nat → Prop :=
      fun s => minFontSize ≤ s ∧ (w s : Int) ≤ (maxWidth : Int) - 40 with hPdef
    have hPm : P (Nat.findGreatest P maxFontSize) :=
      Nat.findGreatest_spec hs2 ⟨hs1, hs3⟩
    have hml : Nat.findGreatest P maxFontSize ≤ maxFontSize :=
      Nat.findGreatest_le maxFontSize
    have habove : ∀ s, Nat.findGreatest P maxFontSize < s → s ≤ maxFontSize →
        ¬((w s : Int) ≤ (maxWidth : Int) - 40) := by
      intro s hlt hle hws
      exact Nat.findGreatest_is_greatest hlt hle ⟨le_trans hPm.1 (le_of_lt hlt), hws⟩
    have heq := getOptimalFont_eq_max w mono minFontSize maxFontSize maxWidth
      (Nat.findGreatest P maxFontSize) hPm.1 hml hPm.2 habove
    rw [heq]
    exact ⟨hPm.1, hml, hPm.2, fun s h1 h2 h3 => Nat.le_findGreatest h2 ⟨h1, h3⟩⟩
  · intro hnone
    unfold getOptimalFont
    apply getOptimalFontAux_of_none
    intro s h1 h2
    rw [decide_eq_false_iff_not]
    exact hnone s h1 h2
  · rintro ⟨s0, hmem, hfit⟩
    cases hfind : (fontCandidates maxFontSize minFontSize).find?
        (fun s => decide (w s ≤ maxW)) with
    | none =>
      rw [List.find?_eq_none] at hfind
      exact absurd (by rw [decide_eq_true_eq]; exact hfit) (hfind s0 hmem)
    | some x =>
      obtain ⟨hxmem, hxfit, hxmax⟩ :=
        find?_desc_max _ _ (fontCandidates_pairwise maxFontSize minFontSize) x hfind
      have hl : bestFont w maxW maxFontSize minFontSize = x := by
        unfold bestFont
        rw [hfind]
        rfl
      rw [hl]
      refine ⟨hxmem, by rwa [decide_eq_true_eq] at hxfit, ?_⟩
      intro s hs hws
      exact hxmax s hs (by rw [decide_eq_true_eq]; exact hws)
  · intro hnone
    unfold bestFont
    rw [List.find?_eq_none.mpr]
    · rfl
    · intro x hx
      rw [decide_eq_true_eq]
      exact hnone x hx

/-- C1 witness: the amended statement applied to the monotone measurement
`linearWidth` over the binary-search revision range. -/
theorem c1_witness :
    (∀ a b : Nat, a ≤ b → linearWidth a ≤ linearWidth b) ∧
    (((∃ s, 24 ≤ s ∧ s ≤ 120 ∧ (linearWidth s : Int) ≤ ((140 : Nat) : Int) - 40) →
        24 ≤ getOptimalFont linearWidth 24 120 140 ∧
        getOptimalFont linearWidth 24 120 140 ≤ 120 ∧
        (linearWidth (getOptimalFont linearWidth 24 120 140) : Int)
            ≤ ((140 : Nat) : Int) - 40 ∧
        (∀ s, 24 ≤ s → s ≤ 120 → (linearWidth s : Int) ≤ ((140 : Nat) : Int) - 40 →
          s ≤ getOptimalFont linearWidth 24 120 140)) ∧
     ((∀ s, 24 ≤ s → s ≤ 120 → ¬((linearWidth s : Int) ≤ ((140 : Nat) : Int) - 40)) →
        getOptimalFont linearWidth 24 120 140 = 24) ∧
     ((∃ s, s ∈ fontCandidates 120 24 ∧ linearWidth s ≤ 100) →
        bestFont linearWidth 100 120 24 ∈ fontCandidates 120 24 ∧
        linearWidth (bestFont linearWidth 100 120 24) ≤ 100 ∧
        (∀ s, s ∈ fontCandidates 120 24 → linearWidth s ≤ 100 →
          s ≤ bestFont linearWidth 100 120 24)) ∧
     ((∀ s ∈ fontCandidates 120 24, ¬(linearWidth s ≤ 100)) →
        bestFont linearWidth 100 120 24 = 24)) :=
  ⟨fun a b h => h, c1_font_fit_search linearWidth (fun a b h => h) 24 120 140 100⟩

/-- C3 counterexample: same size range 40-180, same width bound 179 and
the monotone measurement whose width equals the size, yet the binary
search returns 139 — it compares against the bound minus its 40-pixel
margin — while the linear scan returns 178, so the two searches do not
converge to the same answer. -/
theorem c3_counterexample :
    (∀ a b : Nat, a ≤ b → linearWidth a ≤ linearWidth b) ∧
    getOptimalFont linearWidth 40 180 179 = 139 ∧
    bestFont linearWidth 179 180 40 = 178 ∧ (139 : Nat) ≠ 178 :=
  ⟨fun a b h => h, by decide, by decide, by decide⟩

/-- C3 amended: under monotone measurement and with the width bounds
aligned — the binary search receives its bound enlarged by the 40-pixel
margin it subtracts back — the two searches agree when no size fits (both
return the configured minimum) and otherwise return sizes that differ by
at most one: the binary search returns the exact maximum fitting size, the
step-2 scan its closest candidate from below. -/
theorem c3_linear_binary_agreement (w : Nat → Nat)
    (mono : ∀ a b : Nat, a ≤ b → w a ≤ w b)
    (minFontSize maxFontSize maxW : Nat) :
    ((∀ s, minFontSize ≤ s → s ≤ maxFontSize → ¬(w s ≤ maxW)) →
      getOptimalFont w minFontSize maxFontSize (maxW + 40) = minFontSize ∧
      bestFont w maxW maxFontSize minFontSize = minFontSize) ∧
    ((∃ s, minFontSize ≤ s ∧ s ≤ maxFontSize ∧ w s ≤ maxW) →
      bestFont w maxW maxFontSize minFontSize
          ≤ getOptimalFont w minFontSize maxFontSize (maxW + 40) ∧
      getOptimalFont w minFontSize maxFontSize (maxW + 40)
          ≤ bestFont w maxW maxFontSize minFontSize + 1) := by
  have hcast : ((maxW + 40 : Nat) : Int) - 40 = (maxW : Int) := by
    push_cast
    ring
  constructor
  · intro hnone
    constructor
    · unfold getOptimalFont
      apply getOptimalFontAux_of_none
      intro s h1 h2
      rw [decide_eq_false_iff_not, hcast, Nat.cast_le]
      exact hnone s h1 h2
    · unfold bestFont
      rw [List.find?_eq_none.mpr]
      · rfl
      · intro x hx
        rw [decide_eq_true_eq]
        have hx' := mem_fontCandidates.mp hx
        exact hnone x hx'.1 hx'.2.1
  · rintro ⟨s0, hs1, hs2, hs3⟩
    set P : Nat → Prop := fun s => minFontSize ≤ s ∧ w s ≤ maxW with hPdef
    have hPm : P (Nat.findGreatest P maxFontSize) :=
      Nat.findGreatest_spec hs2 ⟨hs1, hs3⟩
    have hml : Nat.findGreatest P maxFontSize ≤ maxFontSize :=
      Nat.findGreatest_le maxFontSize
    have habove : ∀ s, Nat.findGreatest P maxFontSize < s → s ≤ maxFontSize →
        ¬(w s ≤ maxW) := by
      intro s hlt hle hws
      exact Nat.findGreatest_is_greatest hlt hle ⟨le_trans hPm.1 (le_of_lt hlt), hws⟩
    have hbin : getOptimalFont w minFontSize maxFontSize (maxW + 40)
        = Nat.findGreatest P maxFontSize := by
      refine getOptimalFont_eq_max w mono _ _ _ _ hPm.1 hml ?_ ?_
      · rw [hcast, Nat.cast_le]
        exact hPm.2
      · intro s h1 h2
        rw [hcast, Nat.cast_le]
        exact habove s h1 h2
    rw [hbin]
    by_cases hgrid : ∃ s, s ∈ fontCandidates maxFontSize minFontSize ∧ w s ≤ maxW
    · obtain ⟨g0, hg0mem, hg0fit⟩ := hgrid
      cases hfind : (fontCandidates maxFontSize minFontSize).find?
          (fun s => decide (w s ≤ maxW)) with
      | none =>
        rw [List.find?_eq_none] at hfind
        exact absurd (by rw [decide_eq_true_eq]; exact hg0fit) (hfind g0 hg0mem)
      | some x =>
        obtain ⟨hxmem, hxfit, hxmax⟩ :=
          find?_desc_max _ _ (fontCandidates_pairwise maxFontSize minFontSize) x hfind
        have hl : bestFont w maxW maxFontSize minFontSize = x := by
          unfold bestFont
          rw [hfind]
          rfl
        rw [hl]
        have hxrange := mem_fontCandidates.mp hxmem
        have hxle : x ≤ Nat.findGreatest P maxFontSize :=
          Nat.le_findGreatest hxrange.2.1
            ⟨hxrange.1, by rwa [decide_eq_true_eq] at hxfit⟩
        refine ⟨hxle, ?_⟩
        by_cases hpar : 2 ∣ (maxFontSize - Nat.findGreatest P maxFontSize)
        · have hmmem : Nat.findGreatest P maxFontSize
              ∈ fontCandidates maxFontSize minFontSize :=
            mem_fontCandidates.mpr ⟨hPm.1, hml, hpar⟩
          have := hxmax _ hmmem (by rw [decide_eq_true_eq]; exact hPm.2)
          omega
        · rcases eq_or_lt_of_le hPm.1 with heq | hlt
          · exfalso
            have hxeq : x = Nat.findGreatest P maxFontSize := by omega
            rw [hxeq] at hxrange
            exact hpar hxrange.2.2
          · have hm1mem : Nat.findGreatest P maxFontSize - 1
                ∈ fontCandidates maxFontSize minFontSize :=
              mem_fontCandidates.mpr ⟨by omega, by omega, by omega⟩
            have hm1fit : w (Nat.findGreatest P maxFontSize - 1) ≤ maxW :=
              le_trans (mono _ _ (by omega)) hPm.2
            have := hxmax _ hm1mem (by rw [decide_eq_true_eq]; exact hm1fit)
            omega
    · push_neg at hgrid
      have hl : bestFont w maxW maxFontSize minFontSize = minFontSize := by
        unfold bestFont
        rw [List.find?_eq_none.mpr]
        · rfl
        · intro x hx
          rw [decide_eq_true_eq]
          exact not_le.mpr (hgrid x hx)
      rw [hl]
      refine ⟨hPm.1, ?_⟩
      by_contra hcon
      push_neg at hcon
      by_cases hpar : 2 ∣ (maxFontSize - Nat.findGreatest P maxFontSize)
      · exact absurd hPm.2
          (not_le.mpr (hgrid _ (mem_fontCandidates.mpr ⟨hPm.1, hml, hpar⟩)))
      · have hm1mem : Nat.findGreatest P maxFontSize - 1
            ∈ fontCandidates maxFontSize minFontSize :=
          mem_fontCandidates.mpr ⟨by omega, by omega, by omega⟩
        exact absurd (le_trans (mono _ _ (by omega)) hPm.2)
          (not_le.mpr (hgrid _ hm1mem))

/-- C3 witness: the amended agreement applied to the monotone measurement
`linearWidth` over the range 24-120 with aligned bound 100. -/
theorem c3_witness :
    (∀ a b : Nat, a ≤ b → linearWidth a ≤ linearWidth b) ∧
    (((∀ s, 24 ≤ s → s ≤ 120 → ¬(linearWidth s ≤ 100)) →
        getOptimalFont linearWidth 24 120 (100 + 40) = 24 ∧
        bestFont linearWidth 100 120 24 = 24) ∧
     ((∃ s, 24 ≤ s ∧ s ≤ 120 ∧ linearWidth s ≤ 100) →
        bestFont linearWidth 100 120 24
            ≤ getOptimalFont linearWidth 24 120 (100 + 40) ∧
        getOptimalFont linearWidth 24 120 (100 + 40)
            ≤ bestFont linearWidth 100 120 24 + 1)) :=
  ⟨fun a b h => h, c3_linear_binary_agreement linearWidth (fun a b h => h) 24 120 100⟩

/-! ## C6: remote retry loop and fallback -/

/-- C6 counterexample: a 500 response on the first attempt is retried —
the second attempt succeeds — but with an empty sleep schedule, so the
claimed exponential backoff of RETRY_DELAY times 2 to the attempt does
not happen after a 5xx response. -/
theorem c6_counterexample :
    respCexC6 0 = ApiResp.http 500 blackDot ∧
    (removeBackgroundApi respCexC6).1 = Except.ok blackDot ∧
    (removeBackgroundApi respCexC6).2 = [] ∧
    ([] : List Nat) ≠ [RETRY_DELAY * 2 ^ 0] :=
  ⟨rfl, rfl, rfl, by decide⟩

/-- A successful attempt ends the loop with the decoded body and no
further sleeping. -/
lemma apiAttempts_succeed_cons (resp : Nat → ApiResp) (maxR a : Nat)
    (rest : List Nat) (img : RGBAImage) (h : resp a = .http 200 img) :
    apiAttempts resp maxR (a :: rest) = (.ok img, []) := by
  simp [apiAttempts, h]

/-- A failed attempt contributes its sleep — backoff for 429, constant
delay for timeout or request error, nothing otherwise, and nothing on the
final attempt — and the loop continues. -/
lemma apiAttempts_fail_cons (resp : Nat → ApiResp) (maxR a : Nat)
    (rest : List Nat) (h : succeedsWith (resp a) = none) :
    apiAttempts resp maxR (a :: rest)
      = ((apiAttempts resp maxR rest).1,
         (if a < maxR - 1 then sleepSchedule (resp a) a else [])
           ++ (apiAttempts resp maxR rest).2) := by
  cases hr : resp a with
  | http code img =>
    rw [hr] at h
    have hcode : ¬(code = 200) := by
      intro hc
      subst hc
      simp [succeedsWith] at h
    by_cases hc429 : code = 429
    · subst hc429
      by_cases hfin : a < maxR - 1
      · simp [apiAttempts, hr, hcode, hfin, sleepSchedule]
      · simp [apiAttempts, hr, hcode, hfin, sleepSchedule]
    · simp [apiAttempts, hr, hcode, hc429, sleepSchedule]
  | timeout =>
    by_cases hfin : a < maxR - 1
    · simp [apiAttempts, hr, hfin, sleepSchedule]
    · simp [apiAttempts, hr, hfin, sleepSchedule]
  | reqError =>
    by_cases hfin : a < maxR - 1
    · simp [apiAttempts, hr, hfin, sleepSchedule]
    · simp [apiAttempts, hr, hfin, sleepSchedule]

/-- C6 amended: the loop retries every non-200 response but sleeps the
exponential backoff RETRY_DELAY * 2 ^ attempt only after a 429; timeouts
and request errors sleep the constant RETRY_DELAY; other statuses,
including 5xx, are retried with no delay.  Attempts are capped at
MAX_API_RETRIES = 2; with no 200 among them the call raises, and
`_remove_background` then falls back to the local strategy instead of
propagating the failure. -/
theorem c6_retry_backoff_fallback (resp : Nat → ApiResp)
    (edgeDetect : RGBAImage → RGBAImage) (imgBytes : ImgBytes) :
    (∀ img, resp 0 = .http 200 img →
      removeBackgroundApi resp = (.ok img, [])) ∧
    (∀ img, succeedsWith (resp 0) = none → resp 1 = .http 200 img →
      removeBackgroundApi resp = (.ok img, sleepSchedule (resp 0) 0)) ∧
    (succeedsWith (resp 0) = none → succeedsWith (resp 1) = none →
      removeBackgroundApi resp = (.error (), sleepSchedule (resp 0) 0) ∧
      removeBackground true resp edgeDetect imgBytes
        = removeBackgroundFallback edgeDetect imgBytes) := by
  have hrange : List.range MAX_API_RETRIES = [0, 1] := rfl
  refine ⟨?_, ?_, ?_⟩
  · intro img h0
    unfold removeBackgroundApi
    rw [hrange, apiAttempts_succeed_cons resp MAX_API_RETRIES 0 [1] img h0]
  · intro img h0none h1
    unfold removeBackgroundApi
    rw [hrange, apiAttempts_fail_cons resp MAX_API_RETRIES 0 [1] h0none,
      apiAttempts_succeed_cons resp MAX_API_RETRIES 1 [] img h1]
    simp [MAX_API_RETRIES]
  · intro h0none h1none
    have hapi : removeBackgroundApi resp = (.error (), sleepSchedule (resp 0) 0) := by
      unfold removeBackgroundApi
      rw [hrange, apiAttempts_fail_cons resp MAX_API_RETRIES 0 [1] h0none,
        apiAttempts_fail_cons resp MAX_API_RETRIES 1 [] h1none]
      simp [apiAttempts, MAX_API_RETRIES]
    refine ⟨hapi, ?_⟩
    unfold removeBackground
    rw [if_pos rfl, hapi]

/-- C6 witness: a 429 then a 200 — the amended theorem yields the
successful retry with the single backoff sleep of one second. -/
theorem c6_witness :
    removeBackgroundApi respWitC6 = (Except.ok blackDot, [RETRY_DELAY * 2 ^ 0]) :=
  (c6_retry_backoff_fallback respWitC6 id ImgBytes.corrupt).2.1 blackDot rfl rfl

end Shobha
